import Mathlib

/-!
Verification of the findings-aggregation pipeline of the multiagent MCP
server: the issue schema (`models.py`), the plugin orchestrator
(`orchestrator.py`) and the analysis-run coordinator (`base_agent.py`).
The Python code is shallowly embedded below; machine-level concerns
(threads, file writing, the external LLM oracle) are modelled by explicit
inputs: per-file oracle outputs, plugin completion times, and the review
string the reviewer oracle returns.
-/

namespace Vibechecker

/-- JSON-like leaf values occurring in finding dicts.  Python `None` and a
stored JSON `null` are the same object, so a missing key and a `null` value
both read back as `null` (mirroring `dict.get` returning `None`). -/
inductive JVal where
  | null : JVal
  | num (n : Int) : JVal
  | str (s : String) : JVal
deriving DecidableEq, Repr

/-- A finding dict as consumed by `Orchestrator.aggregate_results`: a list
of key/value pairs (later bindings shadow earlier ones, as in a dict built
by `json.loads`). -/
abbrev Finding : Type := List (String × JVal)

/-- Python `r.get(k)`: the last binding of `k` wins; a missing key reads as
`None`, which is identified with `null` (see `JVal`). -/
def fget (r : Finding) (k : String) : JVal :=
  match r.reverse.find? (fun kv => kv.1 == k) with
  | some kv => kv.2
  | none => JVal.null

/-- The dedup key of `Orchestrator.aggregate_results`
(orchestrator.py line 67): `(r.get("file"), r.get("line"), r.get("message"),
r.get("tool"))`. -/
def findingKey (r : Finding) : JVal × JVal × JVal × JVal :=
  (fget r "file", fget r "line", fget r "message", fget r "tool")

/-- First-occurrence-wins deduplication by an arbitrary key, with the set
of already-seen keys threaded through (the `seen` set of
`aggregate_results`, modelled as a list with structural membership). -/
def dedupKeyed {β κ : Type} [DecidableEq κ] (key : β → κ) :
    List κ → List β → List β
  | _, [] => []
  | seen, r :: rs =>
      if key r ∈ seen then dedupKeyed key seen rs
      else r :: dedupKeyed key (key r :: seen) rs

/-- `Orchestrator.aggregate_results` (orchestrator.py lines 62-71). -/
def aggregate_results (results : List Finding) : List Finding :=
  dedupKeyed findingKey [] results

/-- `IssueType` enum of models.py (a `str` enum with values
"debt", "improvement", "critical"). -/
inductive IssueType where
  | debt : IssueType
  | improvement : IssueType
  | critical : IssueType
deriving DecidableEq, Repr

/-- The string value of an `IssueType` member. -/
def IssueType.toStr : IssueType → String
  | .debt => "debt"
  | .improvement => "improvement"
  | .critical => "critical"

/-- `Severity` enum of models.py (values "low", "medium", "high"). -/
inductive Severity where
  | low : Severity
  | medium : Severity
  | high : Severity
deriving DecidableEq, Repr

/-- The string value of a `Severity` member. -/
def Severity.toStr : Severity → String
  | .low => "low"
  | .medium => "medium"
  | .high => "high"

/-- A validated `IssueOutput` of models.py.  Field constraints (description
length, positive line, the cross-field rule) are enforced by the validator
`validateIssue` below, which is the only constructor used by the pipeline. -/
structure IssueOutput where
  type : IssueType
  severity : Severity
  description : String
  file : String
  line : Int
  suggestion : Option String
  remediation : Option String
  reference : Option String
deriving DecidableEq, Repr

/-- Truthiness of an optional string field, as tested by
`if not self.suggestion` in models.py: `None` and the empty string are
falsy. -/
def optStrFalsy : Option String → Bool
  | none => true
  | some s => s.isEmpty

/-- `IssueOutput.validate_issue_requirements` (models.py lines 44-57): the
cross-field model validator.  Returns the issue unchanged when the
requirements hold and rejects (`none`, modelling the raised `ValueError`)
otherwise, checking the three conditions in source order. -/
def validate_issue_requirements (i : IssueOutput) : Option IssueOutput :=
  if (i.type = IssueType.debt ∨ i.type = IssueType.improvement)
      ∧ optStrFalsy i.suggestion then
    none
  else if i.type = IssueType.critical ∧ optStrFalsy i.remediation then
    none
  else if i.type = IssueType.critical ∧ i.severity ≠ Severity.high then
    none
  else
    some i

/-- Deep JSON values, the possible results of `json.loads` on the raw
oracle output. -/
inductive Json where
  | null : Json
  | bool (b : Bool) : Json
  | num (n : Int) : Json
  | str (s : String) : Json
  | arr (elems : List Json) : Json
  | obj (fields : List (String × Json)) : Json

/-- Dict lookup on a parsed JSON object (duplicate keys: last one wins, as
in `json.loads`); distinguishes a missing key (`none`) from a present
value. -/
def jget (fields : List (String × Json)) (k : String) : Option Json :=
  (fields.reverse.find? (fun kv => kv.1 == k)).map (fun kv => kv.2)

/-- Pydantic validation of an `Optional[str]` field: missing and `null`
give `None`; a string is accepted; any other value is a validation
error (outer `none`). -/
def asOptStr : Option Json → Option (Option String)
  | none => some none
  | some Json.null => some none
  | some (Json.str s) => some (some s)
  | some _ => none

/-- The field-level stage of pydantic validation of `IssueOutput`
(models.py lines 35-42): enum fields must be one of the closed string
values, `description` is a string of length at least 10, `file` a
non-empty string, `line` an integer at least 1, and the three optional
fields are absent, null or strings.  `none` models a `ValidationError`. -/
def parseIssueFields (fields : List (String × Json)) : Option IssueOutput := do
  let t ← match jget fields "type" with
    | some (Json.str "debt") => some IssueType.debt
    | some (Json.str "improvement") => some IssueType.improvement
    | some (Json.str "critical") => some IssueType.critical
    | _ => none
  let sev ← match jget fields "severity" with
    | some (Json.str "low") => some Severity.low
    | some (Json.str "medium") => some Severity.medium
    | some (Json.str "high") => some Severity.high
    | _ => none
  let desc ← match jget fields "description" with
    | some (Json.str s) => if 10 ≤ s.length then some s else none
    | _ => none
  let file ← match jget fields "file" with
    | some (Json.str s) => if 1 ≤ s.length then some s else none
    | _ => none
  let line ← match jget fields "line" with
    | some (Json.num n) => if 1 ≤ n then some n else none
    | _ => none
  let sugg ← asOptStr (jget fields "suggestion")
  let rem ← asOptStr (jget fields "remediation")
  let ref ← asOptStr (jget fields "reference")
  some ⟨t, sev, desc, file, line, sugg, rem, ref⟩

/-- Full validation `IssueOutput(**issue_data)`: field validation followed
by the `validate_issue_requirements` model validator. -/
def validateIssue (fields : List (String × Json)) : Option IssueOutput :=
  (parseIssueFields fields).bind validate_issue_requirements

/-- `issue.model_dump()` on a validated issue (base_agent.py line 385):
the dict handed to `aggregate_results`.  Note it has `description` but no
`message` and no `tool` entry. -/
def model_dump (i : IssueOutput) : Finding :=
  [("type", JVal.str i.type.toStr),
   ("severity", JVal.str i.severity.toStr),
   ("description", JVal.str i.description),
   ("file", JVal.str i.file),
   ("line", JVal.num i.line),
   ("suggestion", (i.suggestion.map JVal.str).getD JVal.null),
   ("remediation", (i.remediation.map JVal.str).getD JVal.null),
   ("reference", (i.reference.map JVal.str).getD JVal.null)]

/-- The dedup key of an issue as seen by `aggregate_results` through
`model_dump`. -/
def issueKey (i : IssueOutput) : JVal × JVal × JVal × JVal :=
  findingKey (model_dump i)

/-- The issue-deduplication step of `BaseAgent.run` (base_agent.py lines
383-388): dump each issue, run `aggregate_results`, and rebuild the
issues.  Rebuilding a dumped valid issue returns an equal issue, so the
step is a keyed dedup on issues; `dedupIssues_dumps` below certifies the
correspondence with `aggregate_results` on the dumped dicts. -/
def dedupIssues (issues : List IssueOutput) : List IssueOutput :=
  dedupKeyed issueKey [] issues

/-! ### Plugin orchestrator (`Orchestrator.run_plugins`) -/

/-- A registered plugin as the orchestrator sees it: its `name()`, the
wall-clock time its `run` takes, and what `run` does (return findings or
raise an exception with a message).  The scheduler abstraction: a plugin
is yielded by `as_completed` exactly when its completion time is within
the batch budget. -/
instance {ε α : Type} [DecidableEq ε] [DecidableEq α] :
    DecidableEq (Except ε α) := fun a b =>
  match a, b with
  | Except.ok x, Except.ok y =>
      if h : x = y then isTrue (congrArg Except.ok h)
      else isFalse (fun hc => h (by cases hc; rfl))
  | Except.error x, Except.error y =>
      if h : x = y then isTrue (congrArg Except.error h)
      else isFalse (fun hc => h (by cases hc; rfl))
  | Except.ok _, Except.error _ => isFalse (fun hc => Except.noConfusion hc)
  | Except.error _, Except.ok _ => isFalse (fun hc => Except.noConfusion hc)

structure PluginSpec where
  name : String
  time : Nat
  outcome : Except String (List Finding)
deriving DecidableEq, Repr

/-- The synthetic one-element error list
`[{"tool": name, "error": msg}]` of orchestrator.py lines 41-44 and
50-53. -/
def errorEntry (nm msg : String) : List Finding :=
  [[("tool", JVal.str nm), ("error", JVal.str msg)]]

/-- The timeout message `f"timeout after {timeout_sec}s"` of
orchestrator.py line 52 (the budget is modelled as a natural number of
seconds). -/
def timeoutMessage (t : Nat) : String :=
  "timeout after " ++ toString t ++ "s"

/-- The mapping entry produced for a plugin yielded by `as_completed`
(orchestrator.py lines 35-44): its real results on normal return, the
synthetic error entry when it raised. -/
def pluginEntry (p : PluginSpec) : String × List Finding :=
  (p.name,
   match p.outcome with
   | Except.ok rs => rs
   | Except.error e => errorEntry p.name e)

/-- `Orchestrator.run_plugins` (orchestrator.py lines 21-54).  With no
plugins the empty mapping is returned at once.  Otherwise every plugin
completing within the budget contributes its entry; when some plugin is
still outstanding at expiry (`TimeoutError`), each outstanding plugin is
cancelled and mapped to the synthetic timeout entry. -/
def run_plugins (plugins : List PluginSpec) (timeoutSec : Nat) :
    List (String × List Finding) :=
  if plugins.isEmpty then []
  else
    ((plugins.filter (fun p => decide (p.time ≤ timeoutSec))).map
        pluginEntry) ++
    ((plugins.filter (fun p => decide (¬ p.time ≤ timeoutSec))).map
        (fun p => (p.name, errorEntry p.name (timeoutMessage timeoutSec))))

/-- Reading the result mapping at a plugin name (Python dict access). -/
def dictGet (m : List (String × List Finding)) (k : String) :
    Option (List Finding) :=
  (m.find? (fun e => e.1 == k)).map (fun e => e.2)

/-! ### Analysis run coordinator (`BaseAgent`) -/

/-- The raw output of one detection-oracle call, as classified by
`BaseAgent.detect_issues_in_file` (base_agent.py lines 160-185): blank
text, text that fails `json.loads`, or text parsing to a JSON value. -/
inductive OracleOut where
  | empty : OracleOut
  | notJson : OracleOut
  | json (v : Json) : OracleOut

/-- One iteration of the candidate loop (base_agent.py lines 172-181).
An object candidate is validated: validation failure
(`ValidationError`) is logged and skipped; a validated issue is kept only
when its type is among the agent's expected issue types (otherwise a
warning is logged and it is dropped).  A non-object candidate makes
`IssueOutput(**issue_data)` raise an uncaught `TypeError`. -/
def parseCandidate (expected : List IssueType)
    (acc : List IssueOutput) (v : Json) : Except String (List IssueOutput) :=
  match v with
  | Json.obj fields =>
      match validateIssue fields with
      | some issue =>
          if issue.type ∈ expected then Except.ok (acc ++ [issue])
          else Except.ok acc
      | none => Except.ok acc
  | _ => Except.error "TypeError: issue candidate is not a mapping"

/-- `BaseAgent.detect_issues_in_file` (base_agent.py lines 160-185),
given the oracle output for one file.  Blank or non-JSON output yields no
issues; a JSON array is scanned candidate by candidate; iterating any
other JSON value either visits nothing (empty object or empty string) or
raises: iterating a non-empty object or string feeds its keys or
characters to `IssueOutput(**...)` (a `TypeError`), and a number, boolean
or null is not iterable at all. -/
def detect_issues_in_file (expected : List IssueType) (out : OracleOut) :
    Except String (List IssueOutput) :=
  match out with
  | OracleOut.empty => Except.ok []
  | OracleOut.notJson => Except.ok []
  | OracleOut.json v =>
      match v with
      | Json.arr elems => elems.foldlM (parseCandidate expected) []
      | Json.obj [] => Except.ok []
      | Json.obj (_ :: _) =>
          Except.error "TypeError: issue candidate is not a mapping"
      | Json.str s =>
          if s.isEmpty then Except.ok []
          else Except.error "TypeError: issue candidate is not a mapping"
      | _ => Except.error "TypeError: parsed output is not iterable"

/-- `BaseAgent.review_issues` (base_agent.py lines 187-193): with no
issues a canned narrative is returned without calling the reviewer
oracle; otherwise the reviewer oracle is called and its answer (an
arbitrary external string, passed here as `oracleReview`) is returned. -/
def review_issues (agentType oracleReview : String)
    (issues : List IssueOutput) : String :=
  if issues.isEmpty then
    "No " ++ agentType ++
      " issues detected. The codebase shows good quality in this area."
  else oracleReview

/-- Python `str.strip()`: drop leading and trailing whitespace. -/
def pyStrip (s : String) : String :=
  String.mk
    (((s.data.dropWhile Char.isWhitespace).reverse.dropWhile
        Char.isWhitespace).reverse)

/-- Construction of the final `AgentReport(issues=..., review=...)`
(models.py lines 60-71): pydantic checks `min_length=20` on the raw
review, then the `validate_review` field validator requires the stripped
review to have at least 20 characters and stores the stripped string.  A
failure is the `ValidationError` that `BaseAgent.run` turns into a fatal
`RuntimeError`. -/
structure AgentReport where
  issues : List IssueOutput
  review : String
deriving DecidableEq, Repr

/-- Validating construction of an `AgentReport`. -/
def mkAgentReport (issues : List IssueOutput) (review : String) :
    Except String AgentReport :=
  if review.length < 20 then
    Except.error "output validation failed: review too short"
  else if (pyStrip review).length < 20 then
    Except.error
      "output validation failed: Review must be at least 20 characters long"
  else Except.ok ⟨issues, pyStrip review⟩

/-- The issue pipeline of `BaseAgent.run` (base_agent.py lines 342-441),
from the per-file oracle outputs (listed in task completion order, since
`run` extends `all_issues` in `as_completed` order) to the validated
report.  Directory scanning, the plugin side channel and report-file
writing are external input/output collaborators outside this core and
are not modelled; an uncaught exception from a detection worker
re-raises out of `run` (the `handle_errors` decorator logs and
re-raises). -/
def runAgent (expected : List IssueType) (agentType : String)
    (outs : List OracleOut) (oracleReview : String) :
    Except String AgentReport := do
  let perFile ← outs.mapM (detect_issues_in_file expected)
  let deduped := dedupIssues perFile.flatten
  mkAgentReport deduped (review_issues agentType oracleReview deduped)

/-- Oracle outputs whose candidate loop cannot raise: blank text,
non-JSON text, or a JSON array all of whose elements are objects. -/
def WellFormedOut : OracleOut → Prop
  | OracleOut.empty => True
  | OracleOut.notJson => True
  | OracleOut.json (Json.arr elems) =>
      ∀ e ∈ elems, ∃ fs, e = Json.obj fs
  | OracleOut.json _ => False

/-- The malformed-output shapes `detect_issues_in_file` handles by
contributing zero issues: blank text, non-JSON text, or a JSON array of
objects all failing schema validation. -/
def MalformedHandled : OracleOut → Prop
  | OracleOut.empty => True
  | OracleOut.notJson => True
  | OracleOut.json (Json.arr elems) =>
      ∀ e ∈ elems, ∃ fs, e = Json.obj fs ∧ validateIssue fs = none
  | OracleOut.json _ => False

/-- The mapping entry a plugin ends up with: its `as_completed` entry when
it finishes inside the budget, the synthetic timeout entry otherwise. -/
def scheduledEntry (t : Nat) (p : PluginSpec) : String × List Finding :=
  if p.time ≤ t then pluginEntry p
  else (p.name, errorEntry p.name (timeoutMessage t))

/-- The cross-field rule of `validate_issue_requirements`, as a
predicate on a validated issue: debt and improvement issues carry a
non-empty suggestion; critical issues carry a non-empty remediation and
high severity. -/
def RuleOk (i : IssueOutput) : Prop :=
  ((i.type = IssueType.debt ∨ i.type = IssueType.improvement) →
      ∃ s, i.suggestion = some s ∧ s ≠ "") ∧
  (i.type = IssueType.critical →
      (∃ s, i.remediation = some s ∧ s ≠ "") ∧ i.severity = Severity.high)

/-! ### Concrete values used by witnesses and counterexamples -/

/-- A valid debt issue at a.py line 3. -/
def wIssueA : IssueOutput :=
  ⟨IssueType.debt, Severity.low, "duplicate code block found", "a.py", 3,
   some "refactor the shared block", none, none⟩

/-- A valid debt issue at the same file and line as `wIssueA` but with a
different description. -/
def wIssueB : IssueOutput :=
  ⟨IssueType.debt, Severity.medium, "overly long function detected",
   "a.py", 3, some "split the function", none, none⟩

/-- A valid critical issue at b.py line 7. -/
def wIssueC : IssueOutput :=
  ⟨IssueType.critical, Severity.high, "SQL injection risk in query",
   "b.py", 7, none, some "use parameterized queries", none⟩

/-- Raw candidate fields of `wIssueC`. -/
def wCriticalFields : List (String × Json) :=
  [("type", Json.str "critical"), ("severity", Json.str "high"),
   ("description", Json.str "SQL injection risk in query"),
   ("file", Json.str "b.py"), ("line", Json.num 7),
   ("remediation", Json.str "use parameterized queries")]

/-- Oracle output yielding exactly `wIssueA`. -/
def wGoodOut : OracleOut :=
  OracleOut.json (Json.arr [Json.obj
    [("type", Json.str "debt"), ("severity", Json.str "low"),
     ("description", Json.str "duplicate code block found"),
     ("file", Json.str "a.py"), ("line", Json.num 3),
     ("suggestion", Json.str "refactor the shared block")]])

/-- Oracle output yielding exactly `wIssueC`. -/
def wCriticalOut : OracleOut :=
  OracleOut.json (Json.arr [Json.obj wCriticalFields])

/-- Parseable oracle output whose single candidate is not an object: the
JSON text `[1]`. -/
def wBadOut : OracleOut := OracleOut.json (Json.arr [Json.num 1])

/-- Parseable oracle output whose single object candidate fails schema
validation (missing every required field but `type`). -/
def wInvalidOut : OracleOut :=
  OracleOut.json (Json.arr [Json.obj [("type", Json.str "debt")]])

/-- A fast plugin returning one real finding. -/
def wFastPlugin : PluginSpec :=
  ⟨"ruff", 1, Except.ok
    [[("file", JVal.str "a.py"), ("line", JVal.num 3),
      ("severity", JVal.str "low"),
      ("message", JVal.str "unused import"),
      ("tool", JVal.str "ruff")]]⟩

/-- A plugin that takes 99 seconds, far beyond a 20 second budget. -/
def wSlowPlugin : PluginSpec := ⟨"semgrep", 99, Except.ok []⟩

/-- A plugin whose run raises an exception. -/
def wFailPlugin : PluginSpec :=
  ⟨"bandit", 2, Except.error "bandit crashed"⟩

/-- A third plugin returning no findings. -/
def wThirdPlugin : PluginSpec := ⟨"mypy", 3, Except.ok []⟩

/-- A reviewer-oracle answer longer than 20 characters with no
surrounding whitespace. -/
def wLongReview : String :=
  "The code needs moderate cleanup across both files."

/-- The report produced from `wGoodOut` alone under review
`wLongReview`. -/
def wReport : AgentReport := ⟨[wIssueA], wLongReview⟩

theorem dedupIssues_dumps (issues : List IssueOutput) :
    (dedupIssues issues).map model_dump =
      aggregate_results (issues.map model_dump) := by
  unfold dedupIssues aggregate_results
  suffices h : ∀ (seen : List (JVal × JVal × JVal × JVal))
      (l : List IssueOutput),
      (dedupKeyed issueKey seen l).map model_dump =
        dedupKeyed findingKey seen (l.map model_dump) from h [] issues
  intro seen l
  induction l generalizing seen with
  | nil => simp [dedupKeyed]
  | cons i l ih =>
      simp only [List.map_cons, dedupKeyed, issueKey]
      by_cases hmem : findingKey (model_dump i) ∈ seen
      · simp [hmem, ih]
      · simp [hmem, ih]

/-! ### Generic lemmas about keyed first-occurrence deduplication -/

section DedupLemmas

variable {β κ : Type} [DecidableEq κ] (key : β → κ)

theorem dedupKeyed_sublist (seen : List κ) (l : List β) :
    (dedupKeyed key seen l).Sublist l := by
  induction l generalizing seen with
  | nil => simp [dedupKeyed]
  | cons r rs ih =>
      simp only [dedupKeyed]
      by_cases hmem : key r ∈ seen
      · simp only [hmem, if_pos]
        exact (ih seen).trans (List.sublist_cons_self r rs)
      · simp only [hmem, if_neg, not_false_iff]
        exact (ih (key r :: seen)).cons₂ r

theorem dedupKeyed_mem_key_of_mem (seen : List κ) (l : List β) (r : β)
    (hr : r ∈ dedupKeyed key seen l) : key r ∉ seen := by
  induction l generalizing seen with
  | nil => simp [dedupKeyed] at hr
  | cons a rs ih =>
      simp only [dedupKeyed] at hr
      by_cases hmem : key a ∈ seen
      · simp only [hmem, if_pos] at hr
        exact ih seen hr
      · simp only [hmem, if_neg, not_false_iff, List.mem_cons] at hr
        rcases hr with h | h
        · subst h; exact hmem
        · intro hk
          exact ih (key a :: seen) h (List.mem_cons_of_mem _ hk)

theorem dedupKeyed_filter_of_seen (seen : List κ) (l : List β) (k : κ)
    (hk : k ∈ seen) :
    (dedupKeyed key seen l).filter (fun r => decide (key r = k)) = [] := by
  induction l generalizing seen with
  | nil => simp [dedupKeyed]
  | cons r rs ih =>
      simp only [dedupKeyed]
      by_cases hmem : key r ∈ seen
      · simp only [hmem, if_pos]
        exact ih seen hk
      · simp only [hmem, if_neg, not_false_iff]
        have hne : ¬ key r = k := fun h => hmem (h ▸ hk)
        simp only [List.filter_cons, hne, decide_eq_true_eq, if_neg]
        exact ih (key r :: seen) (List.mem_cons_of_mem _ hk)

theorem dedupKeyed_filter_key (seen : List κ) (l : List β) (k : κ)
    (hk : k ∉ seen) :
    (dedupKeyed key seen l).filter (fun r => decide (key r = k)) =
      (l.filter (fun r => decide (key r = k))).take 1 := by
  induction l generalizing seen with
  | nil => simp [dedupKeyed]
  | cons r rs ih =>
      simp only [dedupKeyed]
      by_cases hmem : key r ∈ seen
      · have hne : ¬ key r = k := fun h => hk (h ▸ hmem)
        simp only [hmem, if_pos, List.filter_cons, hne, decide_eq_true_eq,
          if_neg]
        exact ih seen hk
      · simp only [hmem, if_neg, not_false_iff]
        by_cases hkey : key r = k
        · subst hkey
          have hempty := dedupKeyed_filter_of_seen key (key r :: seen) rs
            (key r) (List.mem_cons_self _ _)
          simp [List.filter_cons, hempty]
        · simp only [List.filter_cons, hkey, decide_eq_true_eq, if_neg]
          refine ih (key r :: seen) ?_
          simp only [List.mem_cons, not_or]
          exact ⟨fun h => hkey h.symm, hk⟩

theorem dedupKeyed_keys_nodup (seen : List κ) (l : List β) :
    ((dedupKeyed key seen l).map key).Nodup := by
  induction l generalizing seen with
  | nil => simp [dedupKeyed]
  | cons r rs ih =>
      simp only [dedupKeyed]
      by_cases hmem : key r ∈ seen
      · simp only [hmem, if_pos]
        exact ih seen
      · simp only [hmem, if_neg, not_false_iff, List.map_cons,
          List.nodup_cons]
        refine ⟨?_, ih (key r :: seen)⟩
        intro hin
        rcases List.mem_map.mp hin with ⟨x, hx, hxk⟩
        exact dedupKeyed_mem_key_of_mem key _ _ x hx
          (by simp [hxk])

theorem dedupKeyed_mem_key_iff (seen : List κ) (l : List β) (k : κ)
    (hk : k ∉ seen) :
    k ∈ (dedupKeyed key seen l).map key ↔ k ∈ l.map key := by
  induction l generalizing seen with
  | nil => simp [dedupKeyed]
  | cons r rs ih =>
      simp only [dedupKeyed]
      by_cases hmem : key r ∈ seen
      · have hne : key r ≠ k := fun h => hk (h ▸ hmem)
        simp only [hmem, if_pos, List.map_cons, List.mem_cons]
        rw [ih seen hk]
        constructor
        · exact Or.inr
        · rintro (h | h)
          · exact absurd h.symm hne
          · exact h
      · simp only [hmem, if_neg, not_false_iff, List.map_cons,
          List.mem_cons]
        by_cases hkey : key r = k
        · simp [hkey]
        · have hnotin : k ∉ key r :: seen := by
            simp only [List.mem_cons, not_or]
            exact ⟨fun h => hkey h.symm, hk⟩
          rw [ih (key r :: seen) hnotin]

theorem dedupKeyed_of_nodup (seen : List κ) (l : List β)
    (hn : (l.map key).Nodup) (hs : ∀ r ∈ l, key r ∉ seen) :
    dedupKeyed key seen l = l := by
  induction l generalizing seen with
  | nil => simp [dedupKeyed]
  | cons r rs ih =>
      simp only [List.map_cons, List.nodup_cons] at hn
      have hmem : key r ∉ seen := hs r (List.mem_cons_self r rs)
      simp only [dedupKeyed, hmem, if_neg, not_false_iff]
      congr 1
      refine ih (key r :: seen) hn.2 ?_
      intro x hx
      simp only [List.mem_cons]
      push_neg
      constructor
      · intro hxk
        exact hn.1 (hxk ▸ List.mem_map_of_mem key hx)
      · exact hs x (List.mem_cons_of_mem _ hx)

end DedupLemmas

/-! ### Lemmas about the plugin orchestrator -/

theorem scheduledEntry_name (t : Nat) (p : PluginSpec) :
    (scheduledEntry t p).1 = p.name := by
  unfold scheduledEntry
  split
  · rfl
  · rfl

theorem mem_run_plugins (plugins : List PluginSpec) (t : Nat)
    (q : String × List Finding) :
    q ∈ run_plugins plugins t ↔ ∃ p ∈ plugins, q = scheduledEntry t p := by
  cases plugins with
  | nil => simp [run_plugins]
  | cons a l =>
      simp only [run_plugins, List.isEmpty_cons, Bool.false_eq_true,
        if_neg, not_false_iff, List.mem_append, List.mem_map,
        List.mem_filter, decide_eq_true_eq]
      constructor
      · rintro (⟨p2, ⟨hp2, hle⟩, rfl⟩ | ⟨p2, ⟨hp2, hgt⟩, rfl⟩)
        · exact ⟨p2, hp2, by simp [scheduledEntry, hle]⟩
        · exact ⟨p2, hp2, by simp [scheduledEntry, hgt]⟩
      · rintro ⟨p2, hp2, rfl⟩
        by_cases hle : p2.time ≤ t
        · exact Or.inl ⟨p2, ⟨hp2, hle⟩, by simp [scheduledEntry, hle]⟩
        · exact Or.inr ⟨p2, ⟨hp2, hle⟩, by simp [scheduledEntry, hle]⟩

theorem dictGet_run_plugins (plugins : List PluginSpec) (t : Nat)
    (hnd : (plugins.map PluginSpec.name).Nodup)
    (p : PluginSpec) (hp : p ∈ plugins) :
    dictGet (run_plugins plugins t) p.name =
      some (scheduledEntry t p).2 := by
  have hmem : scheduledEntry t p ∈ run_plugins plugins t :=
    (mem_run_plugins plugins t _).mpr ⟨p, hp, rfl⟩
  unfold dictGet
  have hsome : ((run_plugins plugins t).find?
      (fun e => e.1 == p.name)).isSome = true := by
    rw [List.find?_isSome]
    exact ⟨scheduledEntry t p, hmem, by
      simp [scheduledEntry_name]⟩
  obtain ⟨q, hq⟩ := Option.isSome_iff_exists.mp hsome
  have hqmem : q ∈ run_plugins plugins t := List.mem_of_find?_eq_some hq
  have hqname : q.1 = p.name := by
    have := List.find?_some hq
    simpa using this
  obtain ⟨p2, hp2, hq2⟩ := (mem_run_plugins plugins t q).mp hqmem
  have hname2 : p2.name = p.name := by
    rw [← scheduledEntry_name t p2, ← hq2, hqname]
  have hpp : p2 = p := List.inj_on_of_nodup_map hnd hp2 hp hname2
  rw [hq, hq2, hpp]
  rfl

theorem run_plugins_keys_complete (plugins : List PluginSpec) (t : Nat)
    (hall : ∀ p ∈ plugins, p.time ≤ t) :
    (run_plugins plugins t).map Prod.fst =
      plugins.map PluginSpec.name := by
  cases plugins with
  | nil => simp [run_plugins]
  | cons a l =>
      have hf1 : (a :: l).filter (fun p => decide (p.time ≤ t)) = a :: l :=
        List.filter_eq_self.mpr
          (fun x hx => decide_eq_true (hall x hx))
      have hf2 : (a :: l).filter (fun p => decide (¬ p.time ≤ t)) = [] :=
        List.filter_eq_nil_iff.mpr
          (fun x hx => by simp [hall x hx])
      simp only [run_plugins, List.isEmpty_cons, Bool.false_eq_true,
        if_neg, not_false_iff, hf1, hf2, List.map_nil, List.append_nil,
        List.map_map]
      rfl

/-! ### Lemmas about the cross-field validator -/

theorem validate_issue_requirements_eq_some (i j : IssueOutput) :
    validate_issue_requirements i = some j ↔ (j = i ∧ RuleOk i) := by
  unfold validate_issue_requirements
  split
  · rename_i h1
    refine iff_of_false (by simp) ?_
    rintro ⟨_, hrule⟩
    rcases h1 with ⟨htype, hfalsy⟩
    obtain ⟨s, hs, hne⟩ := hrule.1 htype
    rw [hs] at hfalsy
    exact hne ((String.isEmpty_iff s).mp hfalsy)
  · split
    · rename_i h2
      refine iff_of_false (by simp) ?_
      rintro ⟨_, hrule⟩
      rcases h2 with ⟨htype, hfalsy⟩
      obtain ⟨⟨s, hs, hne⟩, _⟩ := hrule.2 htype
      rw [hs] at hfalsy
      exact hne ((String.isEmpty_iff s).mp hfalsy)
    · split
      · rename_i h3
        refine iff_of_false (by simp) ?_
        rintro ⟨_, hrule⟩
        exact h3.2 (hrule.2 h3.1).2
      · rename_i h1 h2 h3
        simp only [Option.some_inj]
        constructor
        · intro hji
          refine ⟨hji.symm, ?_, ?_⟩
          · intro htype
            rcases hsugg : i.suggestion with _ | s
            · exact absurd ⟨htype, by simp [optStrFalsy, hsugg]⟩ h1
            · refine ⟨s, rfl, fun hempty => ?_⟩
              refine h1 ⟨htype, ?_⟩
              simp [optStrFalsy, hsugg, hempty, String.isEmpty_iff]
          · intro htype
            refine ⟨?_, ?_⟩
            · rcases hrem : i.remediation with _ | s
              · exact absurd ⟨htype, by simp [optStrFalsy, hrem]⟩ h2
              · refine ⟨s, rfl, fun hempty => ?_⟩
                refine h2 ⟨htype, ?_⟩
                simp [optStrFalsy, hrem, hempty, String.isEmpty_iff]
            · by_contra hsev
              exact h3 ⟨htype, hsev⟩
        · exact fun h => h.1.symm

theorem validate_issue_requirements_eq_none (i : IssueOutput)
    (h : ¬ RuleOk i) : validate_issue_requirements i = none := by
  cases hv : validate_issue_requirements i with
  | none => rfl
  | some j =>
      exact absurd ((validate_issue_requirements_eq_some i j).mp hv).2 h

/-! ### Lemmas about per-file detection and the run pipeline -/

theorem parseCandidate_ok_types (expected : List IssueType)
    (acc : List IssueOutput) (v : Json) (acc2 : List IssueOutput)
    (hv : parseCandidate expected acc v = Except.ok acc2)
    (hacc : ∀ i ∈ acc, i.type ∈ expected) :
    ∀ i ∈ acc2, i.type ∈ expected := by
  cases v with
  | obj fields =>
      simp only [parseCandidate] at hv
      cases hval : validateIssue fields with
      | none =>
          rw [hval] at hv
          cases hv
          exact hacc
      | some issue =>
          simp only [hval] at hv
          by_cases htype : issue.type ∈ expected
          · rw [if_pos htype] at hv
            cases hv
            intro i hi
            rcases List.mem_append.mp hi with h | h
            · exact hacc i h
            · rw [List.mem_singleton.mp h]
              exact htype
          · rw [if_neg htype] at hv
            cases hv
            exact hacc
  | null => exact absurd hv (by simp [parseCandidate])
  | bool b => exact absurd hv (by simp [parseCandidate])
  | num n => exact absurd hv (by simp [parseCandidate])
  | str s => exact absurd hv (by simp [parseCandidate])
  | arr elems => exact absurd hv (by simp [parseCandidate])

theorem foldlM_parseCandidate_types (expected : List IssueType)
    (elems : List Json) (acc res : List IssueOutput)
    (hacc : ∀ i ∈ acc, i.type ∈ expected)
    (h : List.foldlM (parseCandidate expected) acc elems = Except.ok res) :
    ∀ i ∈ res, i.type ∈ expected := by
  induction elems generalizing acc with
  | nil =>
      rw [List.foldlM_nil] at h
      cases h
      exact hacc
  | cons e es ih =>
      rw [List.foldlM_cons] at h
      cases hv : parseCandidate expected acc e with
      | error msg =>
          rw [hv] at h
          exact absurd h (by simp [Bind.bind, Except.bind])
      | ok acc2 =>
          rw [hv] at h
          exact ih acc2 (parseCandidate_ok_types expected acc e acc2 hv hacc)
            (by simpa [Bind.bind, Except.bind] using h)

theorem detect_ok_types (expected : List IssueType) (out : OracleOut)
    (l : List IssueOutput)
    (h : detect_issues_in_file expected out = Except.ok l) :
    ∀ i ∈ l, i.type ∈ expected := by
  cases out with
  | empty => cases h; intro i hi; cases hi
  | notJson => cases h; intro i hi; cases hi
  | json v =>
      cases v with
      | arr elems =>
          simp only [detect_issues_in_file] at h
          exact foldlM_parseCandidate_types expected elems [] l
            (by intro i hi; cases hi) h
      | obj fields =>
          cases fields with
          | nil =>
              simp only [detect_issues_in_file] at h
              cases h
              intro i hi
              cases hi
          | cons a l2 => exact absurd h (by simp [detect_issues_in_file])
      | str s =>
          simp only [detect_issues_in_file] at h
          by_cases hs : s.isEmpty
          · rw [if_pos hs] at h
            cases h
            intro i hi
            cases hi
          · rw [if_neg hs] at h
            exact absurd h (by simp)
      | null => exact absurd h (by simp [detect_issues_in_file])
      | bool b => exact absurd h (by simp [detect_issues_in_file])
      | num n => exact absurd h (by simp [detect_issues_in_file])

theorem parseCandidate_obj_ok (expected : List IssueType)
    (acc : List IssueOutput) (fs : List (String × Json)) :
    ∃ acc2, parseCandidate expected acc (Json.obj fs) = Except.ok acc2 := by
  cases hval : validateIssue fs with
  | none => exact ⟨acc, by simp [parseCandidate, hval]⟩
  | some issue =>
      by_cases htype : issue.type ∈ expected
      · exact ⟨acc ++ [issue], by simp [parseCandidate, hval, htype]⟩
      · exact ⟨acc, by simp [parseCandidate, hval, htype]⟩

theorem foldlM_parseCandidate_ok (expected : List IssueType)
    (elems : List Json) (acc : List IssueOutput)
    (h : ∀ e ∈ elems, ∃ fs, e = Json.obj fs) :
    ∃ res, List.foldlM (parseCandidate expected) acc elems =
      Except.ok res := by
  induction elems generalizing acc with
  | nil => exact ⟨acc, by rw [List.foldlM_nil]; rfl⟩
  | cons e es ih =>
      obtain ⟨fs, rfl⟩ := h e (List.mem_cons_self e es)
      obtain ⟨acc2, hacc2⟩ := parseCandidate_obj_ok expected acc fs
      obtain ⟨res, hres⟩ :=
        ih acc2 (fun x hx => h x (List.mem_cons_of_mem _ hx))
      refine ⟨res, ?_⟩
      rw [List.foldlM_cons, hacc2]
      simpa [Bind.bind, Except.bind] using hres

theorem detect_wellFormed_ok (expected : List IssueType) (out : OracleOut)
    (h : WellFormedOut out) :
    ∃ l, detect_issues_in_file expected out = Except.ok l := by
  cases out with
  | empty => exact ⟨[], rfl⟩
  | notJson => exact ⟨[], rfl⟩
  | json v =>
      cases v with
      | arr elems => exact foldlM_parseCandidate_ok expected elems [] h
      | null => exact absurd h (by simp [WellFormedOut])
      | bool b => exact absurd h (by simp [WellFormedOut])
      | num n => exact absurd h (by simp [WellFormedOut])
      | str s => exact absurd h (by simp [WellFormedOut])
      | obj fields => exact absurd h (by simp [WellFormedOut])

theorem foldlM_parseCandidate_invalid (expected : List IssueType)
    (elems : List Json) (acc : List IssueOutput)
    (h : ∀ e ∈ elems, ∃ fs, e = Json.obj fs ∧ validateIssue fs = none) :
    List.foldlM (parseCandidate expected) acc elems = Except.ok acc := by
  induction elems generalizing acc with
  | nil => rw [List.foldlM_nil]; rfl
  | cons e es ih =>
      obtain ⟨fs, rfl, hval⟩ := h e (List.mem_cons_self e es)
      rw [List.foldlM_cons]
      have hstep : parseCandidate expected acc (Json.obj fs) =
          Except.ok acc := by
        simp [parseCandidate, hval]
      rw [hstep]
      simpa [Bind.bind, Except.bind] using
        ih acc (fun x hx => h x (List.mem_cons_of_mem _ hx))

theorem detect_malformedHandled (expected : List IssueType)
    (out : OracleOut) (h : MalformedHandled out) :
    detect_issues_in_file expected out = Except.ok [] := by
  cases out with
  | empty => rfl
  | notJson => rfl
  | json v =>
      cases v with
      | arr elems => exact foldlM_parseCandidate_invalid expected elems [] h
      | null => exact absurd h (by simp [MalformedHandled])
      | bool b => exact absurd h (by simp [MalformedHandled])
      | num n => exact absurd h (by simp [MalformedHandled])
      | str s => exact absurd h (by simp [MalformedHandled])
      | obj fields => exact absurd h (by simp [MalformedHandled])

theorem mapM_ok_of_all {α β : Type} (f : α → Except String β)
    (xs : List α) (h : ∀ x ∈ xs, ∃ y, f x = Except.ok y) :
    ∃ ys, xs.mapM f = Except.ok ys := by
  induction xs with
  | nil => exact ⟨[], by rw [List.mapM_nil]; rfl⟩
  | cons x xs ih =>
      obtain ⟨y, hy⟩ := h x (List.mem_cons_self x xs)
      obtain ⟨ys, hys⟩ := ih (fun a ha => h a (List.mem_cons_of_mem _ ha))
      refine ⟨y :: ys, ?_⟩
      rw [List.mapM_cons, hy, hys]
      rfl

theorem mapM_ok_mem {α β : Type} (f : α → Except String β)
    (xs : List α) (ys : List β) (h : xs.mapM f = Except.ok ys) :
    ∀ y ∈ ys, ∃ x ∈ xs, f x = Except.ok y := by
  induction xs generalizing ys with
  | nil =>
      rw [List.mapM_nil] at h
      cases h
      intro y hy
      cases hy
  | cons x xs ih =>
      rw [List.mapM_cons] at h
      cases hx : f x with
      | error e =>
          rw [hx] at h
          exact absurd h (by simp [Bind.bind, Except.bind])
      | ok y0 =>
          rw [hx] at h
          cases hxs : xs.mapM f with
          | error e =>
              rw [hxs] at h
              exact absurd h (by simp [Bind.bind, Except.bind, Pure.pure])
          | ok ys0 =>
              rw [hxs] at h
              have hys : ys = y0 :: ys0 := by
                have := h
                simp [Bind.bind, Except.bind, Pure.pure, Except.pure]
                  at this
                exact this.symm
              subst hys
              intro y hy
              rcases List.mem_cons.mp hy with rfl | hmem
              · exact ⟨x, List.mem_cons_self x xs, hx⟩
              · obtain ⟨x2, hx2, hfx2⟩ := ih ys0 hxs y hmem
                exact ⟨x2, List.mem_cons_of_mem _ hx2, hfx2⟩

theorem runAgent_eq_of_mapM (expected : List IssueType)
    (agentType oracleReview : String) (outs : List OracleOut)
    (perFile : List (List IssueOutput))
    (h : outs.mapM (detect_issues_in_file expected) = Except.ok perFile) :
    runAgent expected agentType outs oracleReview =
      mkAgentReport (dedupIssues perFile.flatten)
        (review_issues agentType oracleReview
          (dedupIssues perFile.flatten)) := by
  unfold runAgent
  rw [h]
  rfl

theorem runAgent_ok_inv (expected : List IssueType)
    (agentType oracleReview : String) (outs : List OracleOut)
    (r : AgentReport)
    (h : runAgent expected agentType outs oracleReview = Except.ok r) :
    ∃ perFile,
      outs.mapM (detect_issues_in_file expected) = Except.ok perFile ∧
      mkAgentReport (dedupIssues perFile.flatten)
        (review_issues agentType oracleReview
          (dedupIssues perFile.flatten)) = Except.ok r := by
  unfold runAgent at h
  cases hm : outs.mapM (detect_issues_in_file expected) with
  | error e =>
      rw [hm] at h
      exact absurd h (by simp [Bind.bind, Except.bind])
  | ok perFile =>
      rw [hm] at h
      exact ⟨perFile, rfl, h⟩

theorem mkAgentReport_ok_inv (issues : List IssueOutput) (review : String)
    (r : AgentReport) (h : mkAgentReport issues review = Except.ok r) :
    r.issues = issues ∧ r.review = pyStrip review ∧
      20 ≤ r.review.length := by
  unfold mkAgentReport at h
  by_cases h1 : review.length < 20
  · rw [if_pos h1] at h
    exact absurd h (by simp)
  · rw [if_neg h1] at h
    by_cases h2 : (pyStrip review).length < 20
    · rw [if_pos h2] at h
      exact absurd h (by simp)
    · rw [if_neg h2] at h
      cases h
      refine ⟨rfl, rfl, ?_⟩
      show 20 ≤ (pyStrip review).length
      omega

/-! ### Claim theorems -/

/-- C1: schema validation accepts a raw issue candidate only if the
cross-field rule holds — debt and improvement issues carry a non-empty
suggestion, critical issues carry a non-empty remediation and high
severity — and any candidate whose parsed fields violate the rule is
rejected rather than accepted. -/
theorem spec_C1 (fields : List (String × Json)) :
    (∀ i, validateIssue fields = some i → RuleOk i) ∧
    (∀ i, parseIssueFields fields = some i → ¬ RuleOk i →
      validateIssue fields = none) := by
  constructor
  · intro i hi
    unfold validateIssue at hi
    cases hp : parseIssueFields fields with
    | none => rw [hp] at hi; cases hi
    | some i0 =>
        rw [hp] at hi
        obtain ⟨hji, hrule⟩ :=
          (validate_issue_requirements_eq_some i0 i).mp hi
        rw [hji]
        exact hrule
  · intro i hp hrule
    unfold validateIssue
    rw [hp]
    exact validate_issue_requirements_eq_none i hrule

/-- Witness for C1: the concrete critical candidate `wCriticalFields`
validates to `wIssueC`, whose cross-field rule therefore holds. -/
theorem spec_C1_witness : RuleOk wIssueC :=
  (spec_C1 wCriticalFields).1 wIssueC (by decide)

/-- C6: aggregate deduplication is stable — the output is a sublist of the
input (so relative order of retained entries is the input order), and for
every dedup key the retained entries with that key are exactly the first
input entry with that key. -/
theorem spec_C6 (results : List Finding) :
    (aggregate_results results).Sublist results ∧
    ∀ k, (aggregate_results results).filter
        (fun r => decide (findingKey r = k)) =
      (results.filter (fun r => decide (findingKey r = k))).take 1 := by
  constructor
  · exact dedupKeyed_sublist findingKey [] results
  · intro k
    exact dedupKeyed_filter_key findingKey [] results k (by simp)

/-- C7: aggregate deduplication is idempotent. -/
theorem spec_C7 (x : List Finding) :
    aggregate_results (aggregate_results x) = aggregate_results x := by
  unfold aggregate_results
  apply dedupKeyed_of_nodup
  · exact dedupKeyed_keys_nodup findingKey [] x
  · intro r _
    simp

/-- C4 counterexample: two valid issues at the same file and line but with
different descriptions collapse to a single entry in the issue-dedup step
of the run, refuting the claim that issues differing in description are
both retained (the merge key reads `message` and `tool`, which dumped
issues do not carry). -/
theorem spec_C4_counterexample :
    wIssueA.description ≠ wIssueB.description ∧
    dedupIssues [wIssueA, wIssueB] = [wIssueA] := by decide

/-- C4 amended: the issue-dedup step of the run keeps a stable sublist and
collapses two accepted issues exactly when their merge keys agree, and —
because dumped issues carry neither a `message` nor a `tool` entry, so
both key components are always null — the merge keys of two issues agree
exactly when their file and line agree; description is not part of the
effective key. -/
theorem spec_C4_amended (issues : List IssueOutput) :
    (dedupIssues issues).Sublist issues ∧
    (∀ k, (dedupIssues issues).filter (fun i => decide (issueKey i = k)) =
      (issues.filter (fun i => decide (issueKey i = k))).take 1) ∧
    (∀ i j : IssueOutput,
      issueKey i = issueKey j ↔ i.file = j.file ∧ i.line = j.line) := by
  refine ⟨dedupKeyed_sublist issueKey [] issues, ?_, ?_⟩
  · intro k
    exact dedupKeyed_filter_key issueKey [] issues k (by simp)
  · intro i j
    have hi : issueKey i =
        (JVal.str i.file, JVal.num i.line, JVal.null, JVal.null) := rfl
    have hj : issueKey j =
        (JVal.str j.file, JVal.num j.line, JVal.null, JVal.null) := rfl
    rw [hi, hj]
    simp

/-- C2: for a non-empty set of registered plugins (with distinct names),
the mapping returned by `run_plugins` has a key for every plugin name;
a plugin still outstanding at budget expiry maps to the single synthetic
entry with error "timeout after Ns" for budget N, and a plugin that
completed within the budget with results keeps its real result list. -/
theorem spec_C2 (plugins : List PluginSpec) (t : Nat)
    (_hne : plugins ≠ [])
    (hnd : (plugins.map PluginSpec.name).Nodup) :
    ∀ p ∈ plugins,
      (∃ v, dictGet (run_plugins plugins t) p.name = some v) ∧
      (¬ p.time ≤ t →
        dictGet (run_plugins plugins t) p.name =
          some (errorEntry p.name (timeoutMessage t))) ∧
      (∀ rs, p.time ≤ t → p.outcome = Except.ok rs →
        dictGet (run_plugins plugins t) p.name = some rs) := by
  intro p hp
  have hget := dictGet_run_plugins plugins t hnd p hp
  refine ⟨⟨(scheduledEntry t p).2, hget⟩, ?_, ?_⟩
  · intro hgt
    rw [hget]
    unfold scheduledEntry
    rw [if_neg hgt]
  · intro rs hle hok
    rw [hget]
    unfold scheduledEntry
    rw [if_pos hle]
    unfold pluginEntry
    rw [hok]

/-- Witness for C2: with a fast plugin and a 99-second plugin under a
20-second budget, the slow plugin maps to the synthetic timeout entry. -/
theorem spec_C2_witness :
    dictGet (run_plugins [wFastPlugin, wSlowPlugin] 20) "semgrep" =
      some (errorEntry "semgrep" (timeoutMessage 20)) :=
  ((spec_C2 [wFastPlugin, wSlowPlugin] 20 (by decide) (by decide)
    wSlowPlugin (by decide)).2.1 (by decide))

/-- C3: when exactly one of the registered plugins raises and the rest
return normally within budget, the result mapping has exactly one key per
plugin (in particular N keys for N distinctly-named plugins), the failing
plugin maps to the one-element list holding the record with its tool name
and the error message, every other plugin keeps its real results, and the
exception does not escape (`run_plugins` is total). -/
theorem spec_C3 (pre post : List PluginSpec) (f : PluginSpec) (e : String)
    (t : Nat)
    (hnd : ((pre ++ f :: post).map PluginSpec.name).Nodup)
    (hall : ∀ p ∈ pre ++ f :: post, p.time ≤ t)
    (hf : f.outcome = Except.error e)
    (_hok : ∀ p ∈ pre ++ post, ∃ rs, p.outcome = Except.ok rs) :
    ((run_plugins (pre ++ f :: post) t).map Prod.fst =
        (pre ++ f :: post).map PluginSpec.name) ∧
    dictGet (run_plugins (pre ++ f :: post) t) f.name =
      some [[("tool", JVal.str f.name), ("error", JVal.str e)]] ∧
    (∀ p ∈ pre ++ post, ∀ rs, p.outcome = Except.ok rs →
      dictGet (run_plugins (pre ++ f :: post) t) p.name = some rs) := by
  have hfmem : f ∈ pre ++ f :: post :=
    List.mem_append_right pre (List.mem_cons_self f post)
  refine ⟨run_plugins_keys_complete _ t hall, ?_, ?_⟩
  · have hget := dictGet_run_plugins _ t hnd f hfmem
    rw [hget]
    unfold scheduledEntry
    rw [if_pos (hall f hfmem)]
    unfold pluginEntry
    rw [hf]
    rfl
  · intro p hp rs hrs
    have hpmem : p ∈ pre ++ f :: post := by
      rcases List.mem_append.mp hp with h | h
      · exact List.mem_append_left _ h
      · exact List.mem_append_right _ (List.mem_cons_of_mem f h)
    have hget := dictGet_run_plugins _ t hnd p hpmem
    rw [hget]
    unfold scheduledEntry
    rw [if_pos (hall p hpmem)]
    unfold pluginEntry
    rw [hrs]

/-- Witness for C3: among three plugins where only bandit raises, bandit
maps to its synthetic error entry. -/
theorem spec_C3_witness :
    dictGet (run_plugins [wFastPlugin, wFailPlugin, wThirdPlugin] 20)
        "bandit" =
      some [[("tool", JVal.str "bandit"),
             ("error", JVal.str "bandit crashed")]] :=
  (spec_C3 [wFastPlugin] [wThirdPlugin] wFailPlugin "bandit crashed" 20
    (by decide) (by decide) (by decide)
    (by
      intro p hp
      rcases List.mem_append.mp hp with h | h
      · rw [List.mem_singleton.mp h]
        exact ⟨_, rfl⟩
      · rw [List.mem_singleton.mp h]
        exact ⟨_, rfl⟩)).2.1

/-- C5 counterexample: a parseable oracle output whose single candidate
is not an object (the JSON text `[1]`) makes the run raise an uncaught
TypeError instead of contributing zero issues, and the valid issues of
the sibling file are lost, refuting the claim that malformed output
never aborts the run. -/
theorem spec_C5_counterexample :
    detect_issues_in_file [IssueType.debt] wGoodOut =
      Except.ok [wIssueA] ∧
    runAgent [IssueType.debt] "debt" [wGoodOut, wBadOut] wLongReview =
      Except.error "TypeError: issue candidate is not a mapping" := by
  decide

/-- C5 amended: for a file whose oracle output is empty, not parseable as
JSON, or a JSON array of objects all failing schema validation, detection
contributes zero issues without raising, and the run proceeds with
exactly the issues of the other files; outputs that parse to JSON that is
not an array of objects are instead an uncaught TypeError aborting the
run (see the counterexample). -/
theorem spec_C5_amended (expected : List IssueType)
    (agentType oracleReview : String) (out1 out2 bad : OracleOut)
    (l1 l2 : List IssueOutput)
    (h1 : detect_issues_in_file expected out1 = Except.ok l1)
    (h2 : detect_issues_in_file expected out2 = Except.ok l2)
    (hbad : MalformedHandled bad) :
    detect_issues_in_file expected bad = Except.ok [] ∧
    runAgent expected agentType [out1, bad, out2] oracleReview =
      mkAgentReport (dedupIssues (l1 ++ l2))
        (review_issues agentType oracleReview (dedupIssues (l1 ++ l2))) := by
  have hzero := detect_malformedHandled expected bad hbad
  refine ⟨hzero, ?_⟩
  have hmap : [out1, bad, out2].mapM (detect_issues_in_file expected) =
      Except.ok [l1, [], l2] := by
    rw [List.mapM_cons, h1, List.mapM_cons, hzero, List.mapM_cons, h2,
      List.mapM_nil]
    rfl
  have := runAgent_eq_of_mapM expected agentType oracleReview
    [out1, bad, out2] [l1, [], l2] hmap
  simpa using this

/-- Witness for C5 amended: with a good file, a file whose only candidate
fails validation, and a blank-output file, the run composes its report
from the good file's issue alone. -/
theorem spec_C5_amended_witness :
    detect_issues_in_file [IssueType.debt] wInvalidOut = Except.ok [] ∧
    runAgent [IssueType.debt] "debt" [wGoodOut, wInvalidOut,
        OracleOut.empty] wLongReview =
      mkAgentReport (dedupIssues ([wIssueA] ++ []))
        (review_issues "debt" wLongReview (dedupIssues ([wIssueA] ++ []))) :=
  spec_C5_amended [IssueType.debt] "debt" wLongReview wGoodOut
    OracleOut.empty wInvalidOut [wIssueA] [] (by decide) (by decide)
    (by
      intro e he
      rw [List.mem_singleton.mp he]
      exact ⟨_, rfl, by decide⟩)

/-- C8 counterexample: the same two per-file issue lists merged in the two
possible completion orders produce final lists with the same elements in
different orders — `run` extends the issue list in completion order and
applies no deterministic re-sort — refuting order-independence of the
final list. -/
theorem spec_C8_counterexample :
    [[wIssueA], [wIssueC]].Perm [[wIssueC], [wIssueA]] ∧
    dedupIssues ([[wIssueA], [wIssueC]].flatten) ≠
      dedupIssues ([[wIssueC], [wIssueA]].flatten) := by
  decide

/-- C8 amended: across completion orders of the per-file detection tasks
only the set of merge keys of the final deduplicated list is invariant
(and duplicate-free); the order of entries, and the representative kept
among key-equal issues, follow task completion order. -/
theorem spec_C8_amended (perFile1 perFile2 : List (List IssueOutput))
    (hperm : perFile1.Perm perFile2) :
    ((dedupIssues perFile1.flatten).map issueKey).Nodup ∧
    ∀ k, k ∈ (dedupIssues perFile1.flatten).map issueKey ↔
      k ∈ (dedupIssues perFile2.flatten).map issueKey := by
  constructor
  · exact dedupKeyed_keys_nodup issueKey [] perFile1.flatten
  · intro k
    unfold dedupIssues
    rw [dedupKeyed_mem_key_iff issueKey [] perFile1.flatten k (by simp),
      dedupKeyed_mem_key_iff issueKey [] perFile2.flatten k (by simp)]
    exact (hperm.flatten.map issueKey).mem_iff

/-- Witness for C8 amended: at a concrete pair of completion orders the
key list of the merged output is duplicate-free. -/
theorem spec_C8_amended_witness :
    ((dedupIssues ([[wIssueA], [wIssueC]].flatten)).map issueKey).Nodup :=
  (spec_C8_amended [[wIssueA], [wIssueC]] [[wIssueC], [wIssueA]]
    (by decide)).1

/-- C9 counterexample: a run whose only oracle output parses to `[1]`
fails with an uncaught TypeError even though the report its composition
step would build passes validation — so report-composition failure is not
the only way `run` fails. -/
theorem spec_C9_counterexample :
    runAgent [IssueType.debt] "debt" [wBadOut] wLongReview =
      Except.error "TypeError: issue candidate is not a mapping" ∧
    mkAgentReport (dedupIssues [])
        (review_issues "debt" wLongReview (dedupIssues [])) =
      Except.ok
        ⟨[],
         "No debt issues detected. The codebase shows good quality in this area."⟩ := by
  decide

/-- C9 amended: when every per-file oracle output is empty, non-JSON, or
a JSON array of objects, the run reaches report composition and returns
exactly what the validating constructor returns — a report when the
composed `AgentReport` passes its minimum-content validation, an error
when it fails — and every report the run returns has a review of at
least 20 characters; oracle outputs of other shapes are an additional
uncaught failure path (see the counterexample). -/
theorem spec_C9_amended (expected : List IssueType)
    (agentType oracleReview : String) (outs : List OracleOut)
    (hw : ∀ o ∈ outs, WellFormedOut o) :
    (∃ perFile,
      outs.mapM (detect_issues_in_file expected) = Except.ok perFile ∧
      runAgent expected agentType outs oracleReview =
        mkAgentReport (dedupIssues perFile.flatten)
          (review_issues agentType oracleReview
            (dedupIssues perFile.flatten))) ∧
    (∀ r, runAgent expected agentType outs oracleReview = Except.ok r →
      20 ≤ r.review.length) := by
  constructor
  · obtain ⟨perFile, hmap⟩ := mapM_ok_of_all
      (detect_issues_in_file expected) outs
      (fun o ho => detect_wellFormed_ok expected o (hw o ho))
    exact ⟨perFile, hmap,
      runAgent_eq_of_mapM expected agentType oracleReview outs perFile hmap⟩
  · intro r hr
    obtain ⟨perFile, _, hmk⟩ :=
      runAgent_ok_inv expected agentType oracleReview outs r hr
    exact (mkAgentReport_ok_inv _ _ r hmk).2.2

/-- Witness for C9 amended: the run over the single well-formed output
`wGoodOut` returns the report `wReport`, whose review has at least 20
characters. -/
theorem spec_C9_amended_witness : 20 ≤ wReport.review.length :=
  (spec_C9_amended [IssueType.debt] "debt" wLongReview [wGoodOut]
    (by
      intro o ho
      rw [List.mem_singleton.mp ho]
      intro e he
      rw [List.mem_singleton.mp he]
      exact ⟨_, rfl⟩)).2 wReport (by decide)

/-- C10: every issue in a report returned by the run has one of the
agent's expected issue types — a fully valid candidate of an unexpected
type (for example a critical issue handed to a debt agent) is discarded
during detection and never appears in the report. -/
theorem spec_C10 (expected : List IssueType)
    (agentType oracleReview : String) (outs : List OracleOut)
    (r : AgentReport)
    (h : runAgent expected agentType outs oracleReview = Except.ok r) :
    ∀ i ∈ r.issues, i.type ∈ expected := by
  obtain ⟨perFile, hmap, hmk⟩ :=
    runAgent_ok_inv expected agentType oracleReview outs r h
  intro i hi
  rw [(mkAgentReport_ok_inv _ _ r hmk).1] at hi
  have hflat : i ∈ perFile.flatten :=
    (dedupKeyed_sublist issueKey [] perFile.flatten).mem hi
  obtain ⟨l, hl, hil⟩ := List.mem_flatten.mp hflat
  obtain ⟨o, _, ho⟩ :=
    mapM_ok_mem (detect_issues_in_file expected) outs perFile hmap l hl
  exact detect_ok_types expected o l ho i hil

/-- Witness for C10: the issue of the report returned for `wGoodOut` by a
debt agent has type debt. -/
theorem spec_C10_witness : wIssueA.type ∈ [IssueType.debt] :=
  spec_C10 [IssueType.debt] "debt" wLongReview [wGoodOut] wReport
    (by decide) wIssueA (by decide)

end Vibechecker
